import Mathlib

/-! NOVUS controller setup: set-point derivation.

A shallow embedding of `Core/Src/Controller/setup.c` and `Core/Inc/Controller/setup.h`.

Modelling conventions.

* A C `float` is an exact rational number.  Rounding is not modelled.  An operation whose
  IEEE result is not a finite number (a division by zero) yields `none`; every function that
  may divide by a non-constant therefore returns `Option ℚ`.
* A `uint16_t` stick position is a natural number; the source performs no integer arithmetic
  on it, it is only handed to `map`.
* The global variables `AMP_GAIN`, `SPD_GAIN`, `MNT_GAIN` are the fields of `Globals`, passed
  explicitly.
* `RC_MIN`, `RC_MAX`, `PI` and `map` are declared in `novus_math.h`, which is outside the
  examined sources.  The constants are parameters (`Consts`), `map` is the linear rescale.
-/

namespace NOVUS

/-! ## Data model -/

/-- The constants `RC_MIN`, `RC_MAX` (stick PWM bounds) and `PI`.  They are declared in
`novus_math.h`, outside the examined sources, and are therefore parameters of every function
that uses them. -/
structure Consts where
  RC_MIN : ℕ
  RC_MAX : ℕ
  PI : ℚ
  deriving DecidableEq

/-- The macro `RC_MARGIN_RANGE` of `setup.h`. -/
def RC_MARGIN_RANGE : ℚ := 3

/-- The record `struct Speed_controller_gain`; the field `I_gain` exists only in the build
with `I_CONTROLLER` defined. -/
structure Speed_controller_gain where
  P_gain : ℚ
  D_gain : ℚ
  I_gain : ℚ
  deriving DecidableEq

/-- The record `struct Moment_controller_gain`; the field `I_gain` exists only in the build
with `I_CONTROLLER` defined. -/
structure Moment_controller_gain where
  P_gain : ℚ
  D_gain : ℚ
  I_gain : ℚ
  deriving DecidableEq

/-- The global variables of `setup.h`. -/
structure Globals where
  AMP_GAIN : ℚ
  SPD_GAIN : Speed_controller_gain
  MNT_GAIN : Moment_controller_gain
  deriving DecidableEq

/-- Modelled from the spec: the record `RC` is declared outside the examined sources; it holds
the seven channels named in the comment of `setpoint` (throttle, roll, pitch, yaw, aux1, aux2,
aux3), each an unsigned PWM reading. -/
structure RC where
  throttle : ℕ
  roll : ℕ
  pitch : ℕ
  yaw : ℕ
  aux1 : ℕ
  aux2 : ℕ
  aux3 : ℕ
  deriving DecidableEq

/-- The record `SPT_Value`.  Each field is a C `float`: `none` stands for a value that is not a
finite number. -/
structure SPT_Value where
  speed : Option ℚ
  amplitude : Option ℚ
  cyclic_shift : Option ℚ
  deriving DecidableEq

/-! ## Arithmetic helpers -/

/-- Floating-point division `a / b`: a zero divisor gives no finite result. -/
def fdiv (a b : ℚ) : Option ℚ :=
  if b = 0 then none else some (a / b)

/-- Modelled from the spec: `map` is declared outside the examined sources (`novus_math.h`).
The spec describes it as the linear rescale of `x` from `[in_min, in_max]` to
`[out_min, out_max]`, not clamped (linear extrapolation outside the range), with a division by
zero when `in_max = in_min`. -/
def map (x in_min in_max out_min out_max : ℚ) : Option ℚ :=
  (fdiv ((x - in_min) * (out_max - out_min)) (in_max - in_min)).bind
    fun q => some (q + out_min)

/-! ## Gain setters -/

/-- The function `setSpeedGain(p, d)` of the default build (`I_CONTROLLER` not defined). -/
def setSpeedGain (g : Globals) (p d : ℚ) : Globals :=
  let g1 := { g with SPD_GAIN := { g.SPD_GAIN with P_gain := p } }
  { g1 with SPD_GAIN := { g1.SPD_GAIN with D_gain := d } }

/-- The function `setMomentGain(p, d)` of the default build (`I_CONTROLLER` not defined). -/
def setMomentGain (g : Globals) (p d : ℚ) : Globals :=
  let g1 := { g with MNT_GAIN := { g.MNT_GAIN with P_gain := p } }
  { g1 with MNT_GAIN := { g1.MNT_GAIN with D_gain := d } }

/-- The function `setSpeedGain(p, d, i)` of the build with `I_CONTROLLER` defined: three
assignments in source order, the third one again to `P_gain`. -/
def setSpeedGain_I_CONTROLLER (g : Globals) (p d i : ℚ) : Globals :=
  let g1 := { g with SPD_GAIN := { g.SPD_GAIN with P_gain := p } }
  let g2 := { g1 with SPD_GAIN := { g1.SPD_GAIN with D_gain := d } }
  { g2 with SPD_GAIN := { g2.SPD_GAIN with P_gain := i } }

/-- The function `setMomentGain(p, d, i)` of the build with `I_CONTROLLER` defined: three
assignments in source order, the third one again to `P_gain`. -/
def setMomentGain_I_CONTROLLER (g : Globals) (p d i : ℚ) : Globals :=
  let g1 := { g with MNT_GAIN := { g.MNT_GAIN with P_gain := p } }
  let g2 := { g1 with MNT_GAIN := { g1.MNT_GAIN with D_gain := d } }
  { g2 with MNT_GAIN := { g2.MNT_GAIN with P_gain := i } }

/-- The function `setAmplitudeGain(gain)`. -/
def setAmplitudeGain (g : Globals) (gain : ℚ) : Globals :=
  { g with AMP_GAIN := gain }

/-! ## Unit conversion -/

/-- The function `getStickPercent`: `map(stick_pos, RC_MIN, RC_MAX, 0, 10000) / 100.0`. -/
def getStickPercent (k : Consts) (stick_pos : ℕ) : Option ℚ :=
  (map stick_pos k.RC_MIN k.RC_MAX 0 10000).bind fun m =>
  let percent := m / 100
  some percent

/-- The function `getStickVector`: `map(stick_pos, RC_MIN, RC_MAX, -10000, 10000) / 100.0`. -/
def getStickVector (k : Consts) (stick_pos : ℕ) : Option ℚ :=
  (map stick_pos k.RC_MIN k.RC_MAX (-10000) 10000).bind fun m =>
  let vector := m / 100
  some vector

/-- The function `getStickScalar`. -/
def getStickScalar (stick_vector : ℚ) : ℚ :=
  if stick_vector < 0 then stick_vector * (-1) else stick_vector

/-- The function `checkMargin`. -/
def checkMargin (stick_vector : ℚ) : ℚ :=
  if stick_vector > RC_MARGIN_RANGE * (-1) ∧ stick_vector < RC_MARGIN_RANGE then 0
  else stick_vector

/-! ## Set-point functions -/

/-- The function `setSpeed`: `map(getStickPercent(throttle), 0, 100, 500, 5900)`. -/
def setSpeed (k : Consts) (throttle : ℕ) : Option ℚ :=
  (getStickPercent k throttle).bind fun throttle_percent =>
  (map throttle_percent 0 100 500 5900).bind fun speed =>
  some speed

/-- The function `setAmplitude`; it reads the global `AMP_GAIN`. -/
def setAmplitude (g : Globals) (k : Consts) (roll_stick_pos pitch_stick_pos : ℕ) : Option ℚ :=
  (getStickVector k roll_stick_pos).bind fun roll_vector =>
  (getStickVector k pitch_stick_pos).bind fun pitch_vector =>
  let roll_scalar := getStickScalar roll_vector
  let pitch_scalar := getStickScalar pitch_vector
  let cmd_scalar := (roll_scalar * (1 / 2)) + (pitch_scalar * (1 / 2))
  let amplitude := cmd_scalar * g.AMP_GAIN
  some amplitude

/-- The function `setCyclicShift`.  The local variables `roll_vector` and `pitch_vector` are
re-assigned by `checkMargin` as in the source; the only division with a non-constant divisor is
`pitch_vector / (roll_vector + pitch_vector)`. -/
def setCyclicShift (k : Consts) (roll_stick_pos pitch_stick_pos : ℕ) : Option ℚ :=
  (getStickVector k roll_stick_pos).bind fun roll_vector =>
  (getStickVector k pitch_stick_pos).bind fun pitch_vector =>
  let roll_vector := checkMargin roll_vector
  let pitch_vector := checkMargin pitch_vector
  if roll_vector = 0 ∧ pitch_vector = 0 then
    some 0
  else if roll_vector = 0 ∧ pitch_vector ≠ 0 then
    if pitch_vector < 0 then some k.PI else some 0
  else if roll_vector ≠ 0 ∧ pitch_vector = 0 then
    if roll_vector < 0 then some ((3 * k.PI) / 2) else some (k.PI / 2)
  else
    (fdiv pitch_vector (roll_vector + pitch_vector)).bind fun quotient =>
    let shift_ratio := (k.PI / 2) * quotient
    if pitch_vector < 0 then
      if roll_vector < 0 then some (k.PI + shift_ratio) else some ((-1) * shift_ratio)
    else
      if roll_vector < 0 then some (k.PI - shift_ratio) else some shift_ratio

/-- The function `setpoint`. -/
def setpoint (g : Globals) (k : Consts) (rc : RC) : SPT_Value :=
  { speed := setSpeed k rc.throttle
    amplitude := setAmplitude g k rc.roll rc.pitch
    cyclic_shift := setCyclicShift k rc.roll rc.pitch }

/-- A sample instance of the constants: the usual 1000..2000 PWM range and a rational
approximation of π. -/
def sampleConsts : Consts := { RC_MIN := 1000, RC_MAX := 2000, PI := 355 / 113 }

/-- A sample global state with every gain equal to one. -/
def sampleGlobals : Globals :=
  { AMP_GAIN := 1, SPD_GAIN := ⟨1, 1, 1⟩, MNT_GAIN := ⟨1, 1, 1⟩ }


/-! ## Auxiliary facts about the conversions -/

theorem fdiv_of_ne (a b : ℚ) (h : b ≠ 0) : fdiv a b = some (a / b) := by
  simp [fdiv, h]

theorem fdiv_zero (a : ℚ) : fdiv a 0 = none := by
  simp [fdiv]

theorem map_of_ne (x a b c d : ℚ) (h : b ≠ a) :
    map x a b c d = some ((x - a) * (d - c) / (b - a) + c) := by
  have hb : b - a ≠ 0 := sub_ne_zero.mpr h
  simp [map, fdiv, hb]

theorem rc_range_ne (k : Consts) (h : k.RC_MIN < k.RC_MAX) : (k.RC_MAX : ℚ) ≠ (k.RC_MIN : ℚ) := by
  have : (k.RC_MIN : ℚ) < (k.RC_MAX : ℚ) := by exact_mod_cast h
  exact ne_of_gt this

theorem rc_range_pos (k : Consts) (h : k.RC_MIN < k.RC_MAX) :
    (0 : ℚ) < (k.RC_MAX : ℚ) - (k.RC_MIN : ℚ) := by
  have : (k.RC_MIN : ℚ) < (k.RC_MAX : ℚ) := by exact_mod_cast h
  linarith

/-- With `RC_MIN < RC_MAX` the conversion to a percentage returns a finite value, in closed
form. -/
theorem getStickPercent_eq (k : Consts) (h : k.RC_MIN < k.RC_MAX) (pos : ℕ) :
    getStickPercent k pos
      = some ((((pos : ℚ) - k.RC_MIN) * (10000 - 0) / (k.RC_MAX - k.RC_MIN) + 0) / 100) := by
  simp [getStickPercent, map_of_ne _ _ _ _ _ (rc_range_ne k h)]

/-- With `RC_MIN < RC_MAX` the conversion to a signed vector returns a finite value, in closed
form. -/
theorem getStickVector_eq (k : Consts) (h : k.RC_MIN < k.RC_MAX) (pos : ℕ) :
    getStickVector k pos
      = some ((((pos : ℚ) - k.RC_MIN) * (10000 - (-10000)) / (k.RC_MAX - k.RC_MIN) + (-10000))
          / 100) := by
  simp [getStickVector, map_of_ne _ _ _ _ _ (rc_range_ne k h)]

/-- The body of `setCyclicShift` once both conversions have returned: the case analysis on the
two dead-zone-filtered vectors `r` and `p`. -/
theorem setCyclicShift_of_filtered (k : Consts) (roll pitch : ℕ) (r p : ℚ)
    (hr : (getStickVector k roll).map checkMargin = some r)
    (hp : (getStickVector k pitch).map checkMargin = some p) :
    setCyclicShift k roll pitch =
      if r = 0 ∧ p = 0 then some 0
      else if r = 0 ∧ p ≠ 0 then (if p < 0 then some k.PI else some 0)
      else if r ≠ 0 ∧ p = 0 then (if r < 0 then some ((3 * k.PI) / 2) else some (k.PI / 2))
      else (fdiv p (r + p)).bind fun q =>
        if p < 0 then (if r < 0 then some (k.PI + (k.PI / 2) * q) else some ((-1) * ((k.PI / 2) * q)))
        else (if r < 0 then some (k.PI - (k.PI / 2) * q) else some ((k.PI / 2) * q)) := by
  obtain ⟨rv, hrv, rfl⟩ := Option.map_eq_some'.mp hr
  obtain ⟨pv, hpv, rfl⟩ := Option.map_eq_some'.mp hp
  simp only [setCyclicShift, hrv, hpv, Option.some_bind]

/-! ## Phase (cyclic shift) -/

/-- Claim C1.  When both dead-zone-filtered vectors `r` (roll) and `p` (pitch) are nonzero and
`r + p` is nonzero, `setCyclicShift` returns, with `ratio = (PI/2) * p / (r + p)`:
`PI + ratio` for `p < 0, r < 0`; `-ratio` for `p < 0, r > 0`; `PI - ratio` for `p > 0, r < 0`;
`ratio` for `p > 0, r > 0`. -/
theorem setCyclicShift_both_nonzero (k : Consts) (roll pitch : ℕ) (r p : ℚ)
    (hr : (getStickVector k roll).map checkMargin = some r)
    (hp : (getStickVector k pitch).map checkMargin = some p)
    (hr0 : r ≠ 0) (hp0 : p ≠ 0) (hs : r + p ≠ 0) :
    (p < 0 → r < 0 → setCyclicShift k roll pitch = some (k.PI + (k.PI / 2) * p / (r + p))) ∧
    (p < 0 → r > 0 → setCyclicShift k roll pitch = some (-((k.PI / 2) * p / (r + p)))) ∧
    (p > 0 → r < 0 → setCyclicShift k roll pitch = some (k.PI - (k.PI / 2) * p / (r + p))) ∧
    (p > 0 → r > 0 → setCyclicShift k roll pitch = some ((k.PI / 2) * p / (r + p))) := by
  rw [setCyclicShift_of_filtered k roll pitch r p hr hp]
  simp only [hr0, hp0, false_and, and_false, if_false, fdiv_of_ne p (r + p) hs, Option.some_bind]
  refine ⟨?_, ?_, ?_, ?_⟩
  · intro h1 h2
    simp only [h1, h2, if_true, mul_div_assoc]
  · intro h1 h2
    simp only [h1, not_lt_of_gt h2, if_true, if_false, mul_div_assoc]
    congr 1; ring
  · intro h1 h2
    simp only [not_lt_of_gt h1, h2, if_true, if_false, mul_div_assoc]
  · intro h1 h2
    simp only [not_lt_of_gt h1, not_lt_of_gt h2, if_false, mul_div_assoc]

theorem sample_filtered_1750 :
    (getStickVector sampleConsts 1750).map checkMargin = some 50 := by
  norm_num [getStickVector, map, fdiv, sampleConsts, checkMargin, RC_MARGIN_RANGE]

theorem sample_filtered_1300 :
    (getStickVector sampleConsts 1300).map checkMargin = some (-40) := by
  norm_num [getStickVector, map, fdiv, sampleConsts, checkMargin, RC_MARGIN_RANGE]

/-- Claim C1, at `RC_MIN = 1000`, `RC_MAX = 2000`, roll `1750` (vector `50`) and pitch `1300`
(vector `-40`): the phase is `-ratio` with `ratio = (PI/2) * (-40) / 10`. -/
theorem setCyclicShift_both_nonzero_witness :
    (getStickVector sampleConsts 1750).map checkMargin = some 50 ∧
    (getStickVector sampleConsts 1300).map checkMargin = some (-40) ∧
    (50 : ℚ) ≠ 0 ∧ (-40 : ℚ) ≠ 0 ∧ (50 : ℚ) + (-40) ≠ 0 ∧
    setCyclicShift sampleConsts 1750 1300
      = some (-((sampleConsts.PI / 2) * (-40) / (50 + (-40)))) :=
  ⟨sample_filtered_1750, sample_filtered_1300, by norm_num, by norm_num, by norm_num,
    (setCyclicShift_both_nonzero sampleConsts 1750 1300 50 (-40) sample_filtered_1750
      sample_filtered_1300 (by norm_num) (by norm_num) (by norm_num)).2.1
      (by norm_num) (by norm_num)⟩

theorem getStickVector_RC_MIN (k : Consts) (h : k.RC_MIN < k.RC_MAX) :
    getStickVector k k.RC_MIN = some (-100) := by
  rw [getStickVector_eq k h]
  norm_num

theorem getStickVector_RC_MAX (k : Consts) (h : k.RC_MIN < k.RC_MAX) :
    getStickVector k k.RC_MAX = some 100 := by
  rw [getStickVector_eq k h]
  have hd := ne_of_gt (rc_range_pos k h)
  congr 1
  field_simp
  ring

theorem getStickVector_centre (k : Consts) (h : k.RC_MIN < k.RC_MAX) (centre : ℕ)
    (hc : 2 * centre = k.RC_MIN + k.RC_MAX) : getStickVector k centre = some 0 := by
  rw [getStickVector_eq k h]
  have hd := ne_of_gt (rc_range_pos k h)
  have hq : (2 : ℚ) * centre = k.RC_MIN + k.RC_MAX := by exact_mod_cast hc
  have hc2 : (centre : ℚ) = (k.RC_MIN + k.RC_MAX) / 2 := by linarith
  congr 1
  rw [hc2]
  field_simp
  ring

theorem checkMargin_zero : checkMargin 0 = 0 := by
  norm_num [checkMargin, RC_MARGIN_RANGE]

theorem checkMargin_hundred : checkMargin 100 = 100 := by
  norm_num [checkMargin, RC_MARGIN_RANGE]

theorem checkMargin_neg_hundred : checkMargin (-100) = -100 := by
  norm_num [checkMargin, RC_MARGIN_RANGE]

/-- Claim C2.  With `r`, `p` the dead-zone-filtered roll and pitch vectors: `r = 0` and `p = 0`
give phase `0`; `p = 0`, `r ≠ 0` give `PI/2` for `r > 0` and `3*PI/2` for `r < 0`; `r = 0`,
`p ≠ 0` give `0` for `p > 0` and `PI` for `p < 0`.  In particular, with `centre` the stick
position midway between `RC_MIN` and `RC_MAX` (`2 * centre = RC_MIN + RC_MAX`):
`(centre, centre)` gives `0`, `(centre, RC_MAX)` gives `0`, `(centre, RC_MIN)` gives `PI`,
`(RC_MAX, centre)` gives `PI/2` and `(RC_MIN, centre)` gives `3*PI/2`. -/
theorem setCyclicShift_zero_cases (k : Consts) :
    (∀ (roll pitch : ℕ) (r p : ℚ),
      (getStickVector k roll).map checkMargin = some r →
      (getStickVector k pitch).map checkMargin = some p →
      (r = 0 → p = 0 → setCyclicShift k roll pitch = some 0) ∧
      (p = 0 → r > 0 → setCyclicShift k roll pitch = some (k.PI / 2)) ∧
      (p = 0 → r < 0 → setCyclicShift k roll pitch = some (3 * k.PI / 2)) ∧
      (r = 0 → p > 0 → setCyclicShift k roll pitch = some 0) ∧
      (r = 0 → p < 0 → setCyclicShift k roll pitch = some k.PI)) ∧
    (∀ centre : ℕ, k.RC_MIN < k.RC_MAX → 2 * centre = k.RC_MIN + k.RC_MAX →
      setCyclicShift k centre centre = some 0 ∧
      setCyclicShift k centre k.RC_MAX = some 0 ∧
      setCyclicShift k centre k.RC_MIN = some k.PI ∧
      setCyclicShift k k.RC_MAX centre = some (k.PI / 2) ∧
      setCyclicShift k k.RC_MIN centre = some (3 * k.PI / 2)) := by
  have gen : ∀ (roll pitch : ℕ) (r p : ℚ),
      (getStickVector k roll).map checkMargin = some r →
      (getStickVector k pitch).map checkMargin = some p →
      (r = 0 → p = 0 → setCyclicShift k roll pitch = some 0) ∧
      (p = 0 → r > 0 → setCyclicShift k roll pitch = some (k.PI / 2)) ∧
      (p = 0 → r < 0 → setCyclicShift k roll pitch = some (3 * k.PI / 2)) ∧
      (r = 0 → p > 0 → setCyclicShift k roll pitch = some 0) ∧
      (r = 0 → p < 0 → setCyclicShift k roll pitch = some k.PI) := by
    intro roll pitch r p hr hp
    rw [setCyclicShift_of_filtered k roll pitch r p hr hp]
    refine ⟨?_, ?_, ?_, ?_, ?_⟩
    · intro h1 h2
      simp [h1, h2]
    · intro h1 h2
      simp [h1, ne_of_gt h2, not_lt_of_gt h2]
    · intro h1 h2
      simp [h1, ne_of_lt h2, h2]
    · intro h1 h2
      simp [h1, ne_of_gt h2, not_lt_of_gt h2]
    · intro h1 h2
      simp [h1, ne_of_lt h2, h2]
  refine ⟨gen, ?_⟩
  intro centre h hc
  have hmin : (getStickVector k k.RC_MIN).map checkMargin = some (-100) := by
    rw [getStickVector_RC_MIN k h, Option.map_some', checkMargin_neg_hundred]
  have hmax : (getStickVector k k.RC_MAX).map checkMargin = some 100 := by
    rw [getStickVector_RC_MAX k h, Option.map_some', checkMargin_hundred]
  have hcen : (getStickVector k centre).map checkMargin = some 0 := by
    rw [getStickVector_centre k h centre hc, Option.map_some', checkMargin_zero]
  refine ⟨?_, ?_, ?_, ?_, ?_⟩
  · exact (gen centre centre 0 0 hcen hcen).1 rfl rfl
  · exact (gen centre k.RC_MAX 0 100 hcen hmax).2.2.2.1 rfl (by norm_num)
  · exact (gen centre k.RC_MIN 0 (-100) hcen hmin).2.2.2.2 rfl (by norm_num)
  · exact (gen k.RC_MAX centre 100 0 hmax hcen).2.1 rfl (by norm_num)
  · exact (gen k.RC_MIN centre (-100) 0 hmin hcen).2.2.1 rfl (by norm_num)

/-- Claim C2, at `RC_MIN = 1000`, `RC_MAX = 2000`, `centre = 1500`: the five boundary
scenarios. -/
theorem setCyclicShift_zero_cases_witness :
    sampleConsts.RC_MIN < sampleConsts.RC_MAX ∧
    2 * 1500 = sampleConsts.RC_MIN + sampleConsts.RC_MAX ∧
    setCyclicShift sampleConsts 1500 1500 = some 0 ∧
    setCyclicShift sampleConsts 1500 sampleConsts.RC_MAX = some 0 ∧
    setCyclicShift sampleConsts 1500 sampleConsts.RC_MIN = some sampleConsts.PI ∧
    setCyclicShift sampleConsts sampleConsts.RC_MAX 1500 = some (sampleConsts.PI / 2) ∧
    setCyclicShift sampleConsts sampleConsts.RC_MIN 1500 = some (3 * sampleConsts.PI / 2) :=
  ⟨by decide, by decide,
    (setCyclicShift_zero_cases sampleConsts).2 1500 (by decide) (by decide)⟩

/-- Claim C3 (what the code does).  When the dead-zone-filtered vectors are both nonzero and sum
to zero, `setCyclicShift` takes the last branch and divides `pitch_vector` by
`roll_vector + pitch_vector = 0`: it returns no finite phase. -/
theorem setCyclicShift_opposite_vectors (k : Consts) (roll pitch : ℕ) (r p : ℚ)
    (hr : (getStickVector k roll).map checkMargin = some r)
    (hp : (getStickVector k pitch).map checkMargin = some p)
    (hr0 : r ≠ 0) (hp0 : p ≠ 0) (hs : r + p = 0) :
    setCyclicShift k roll pitch = none := by
  rw [setCyclicShift_of_filtered k roll pitch r p hr hp]
  simp [hr0, hp0, hs, fdiv_zero]

theorem sample_filtered_1700 :
    (getStickVector sampleConsts 1700).map checkMargin = some 40 := by
  norm_num [getStickVector, map, fdiv, sampleConsts, checkMargin, RC_MARGIN_RANGE]

/-- Claim C3, at `RC_MIN = 1000`, `RC_MAX = 2000`, roll `1700` (vector `+40`) and pitch `1300`
(vector `-40`): no finite phase. -/
theorem setCyclicShift_opposite_vectors_witness :
    (getStickVector sampleConsts 1700).map checkMargin = some 40 ∧
    (getStickVector sampleConsts 1300).map checkMargin = some (-40) ∧
    (40 : ℚ) ≠ 0 ∧ (-40 : ℚ) ≠ 0 ∧ (40 : ℚ) + (-40) = 0 ∧
    setCyclicShift sampleConsts 1700 1300 = none :=
  ⟨sample_filtered_1700, sample_filtered_1300, by norm_num, by norm_num, by norm_num,
    setCyclicShift_opposite_vectors sampleConsts 1700 1300 40 (-40) sample_filtered_1700
      sample_filtered_1300 (by norm_num) (by norm_num) (by norm_num)⟩

/-- Full right roll with full down pitch (vectors `+100` and `-100`) reaches the division by
zero for every choice of the constants. -/
theorem setCyclicShift_full_right_full_down (k : Consts) (h : k.RC_MIN < k.RC_MAX) :
    setCyclicShift k k.RC_MAX k.RC_MIN = none := by
  have hmin : (getStickVector k k.RC_MIN).map checkMargin = some (-100) := by
    rw [getStickVector_RC_MIN k h, Option.map_some', checkMargin_neg_hundred]
  have hmax : (getStickVector k k.RC_MAX).map checkMargin = some 100 := by
    rw [getStickVector_RC_MAX k h, Option.map_some', checkMargin_hundred]
  rw [setCyclicShift_of_filtered k _ _ 100 (-100) hmax hmin]
  norm_num [fdiv_zero]

/-! ### Range of the phase -/

theorem quot_same_sign (r p : ℚ) (h : (0 < r ∧ 0 < p) ∨ (r < 0 ∧ p < 0)) :
    0 < p / (r + p) ∧ p / (r + p) < 1 := by
  rcases h with ⟨hr, hp⟩ | ⟨hr, hp⟩
  · have hd : 0 < r + p := by linarith
    exact ⟨div_pos hp hd, (div_lt_one hd).mpr (by linarith)⟩
  · have hd : r + p < 0 := by linarith
    exact ⟨div_pos_of_neg_of_neg hp hd, (div_lt_one_of_neg hd).mpr (by linarith)⟩

theorem quot_range_neg_pos (r p : ℚ) (hp : p < 0) (hr : 0 < r) (hs : r + p ≠ 0) :
    (-4 ≤ p / (r + p) ∧ p / (r + p) ≤ 1) ↔ -5 * p ≤ 4 * r := by
  rcases lt_or_gt_of_ne hs with hd | hd
  · rw [le_div_iff_of_neg hd, div_le_iff_of_neg hd]
    constructor
    · rintro ⟨h1, h2⟩; linarith
    · intro h; exfalso; linarith
  · rw [le_div_iff₀ hd, div_le_iff₀ hd]
    constructor
    · rintro ⟨h1, h2⟩; linarith
    · intro h; constructor <;> linarith

theorem quot_range_pos_neg (r p : ℚ) (hp : 0 < p) (hr : r < 0) (hs : r + p ≠ 0) :
    (-2 ≤ p / (r + p) ∧ p / (r + p) ≤ 3) ↔ (-3 * r ≤ 2 * p ∨ 3 * p ≤ -2 * r) := by
  rcases lt_or_gt_of_ne hs with hd | hd
  · rw [le_div_iff_of_neg hd, div_le_iff_of_neg hd]
    constructor
    · rintro ⟨h1, h2⟩; right; linarith
    · rintro (h | h)
      · exfalso; linarith
      · constructor <;> linarith
  · rw [le_div_iff₀ hd, div_le_iff₀ hd]
    constructor
    · rintro ⟨h1, h2⟩; left; linarith
    · rintro (h | h)
      · constructor <;> linarith
      · exfalso; linarith

theorem pi_scale (PI a b : ℚ) (h : 0 < PI) : PI * a ≤ PI * b ↔ a ≤ b :=
  mul_le_mul_left h

/-- Claim C4, refuted as stated, at `RC_MIN = 1000`, `RC_MAX = 2000`.  Roll `2000` (vector
`100`) with pitch `1050` (vector `-90`, sum `10`) gives the phase `9*PI/2`, above `2*PI`; roll
`1600` (vector `20`) with pitch `1000` (vector `-100`, sum `-80`) gives `-(5*PI/8)`, below
`-PI/2`. -/
theorem setCyclicShift_range_counterexample :
    (sampleConsts.RC_MIN ≤ 2000 ∧ 2000 ≤ sampleConsts.RC_MAX) ∧
    (sampleConsts.RC_MIN ≤ 1050 ∧ 1050 ≤ sampleConsts.RC_MAX) ∧
    (sampleConsts.RC_MIN ≤ 1600 ∧ 1600 ≤ sampleConsts.RC_MAX) ∧
    (sampleConsts.RC_MIN ≤ 1000 ∧ 1000 ≤ sampleConsts.RC_MAX) ∧
    (getStickVector sampleConsts 2000).map checkMargin = some 100 ∧
    (getStickVector sampleConsts 1050).map checkMargin = some (-90) ∧
    (getStickVector sampleConsts 1600).map checkMargin = some 20 ∧
    (getStickVector sampleConsts 1000).map checkMargin = some (-100) ∧
    setCyclicShift sampleConsts 2000 1050 = some (9 * sampleConsts.PI / 2) ∧
    ¬ (9 * sampleConsts.PI / 2 ≤ 2 * sampleConsts.PI) ∧
    setCyclicShift sampleConsts 1600 1000 = some (-(5 * sampleConsts.PI / 8)) ∧
    ¬ (-(sampleConsts.PI / 2) ≤ -(5 * sampleConsts.PI / 8)) := by
  refine ⟨by decide, by decide, by decide, by decide, ?_, ?_, ?_, ?_, ?_, ?_, ?_, ?_⟩ <;>
    norm_num [setCyclicShift, getStickVector, map, fdiv, sampleConsts, checkMargin,
      RC_MARGIN_RANGE]

/-- Claim C4, amended.  Let `r`, `p` be the dead-zone-filtered roll and pitch vectors, not both
nonzero with sum zero, and `PI > 0`.  Then `setCyclicShift` returns a phase `s`, and `s` lies in
`[-PI/2, 2*PI]` exactly when `r` and `p` are not of opposite sign (`r * p ≥ 0`), or
`p < 0 < r` with `5*|p| ≤ 4*r`, or `r < 0 < p` with `3*|r| ≤ 2*p` or `3*p ≤ 2*|r|`.  When `r`
and `p` are not of opposite sign, `s` even lies in `[0, 3*PI/2]`. -/
theorem setCyclicShift_range (k : Consts) (roll pitch : ℕ) (r p : ℚ) (hPI : 0 < k.PI)
    (hr : (getStickVector k roll).map checkMargin = some r)
    (hp : (getStickVector k pitch).map checkMargin = some p)
    (hdeg : r = 0 ∨ p = 0 ∨ r + p ≠ 0) :
    ∃ s, setCyclicShift k roll pitch = some s ∧
      ((-(k.PI / 2) ≤ s ∧ s ≤ 2 * k.PI) ↔
        (0 ≤ r * p ∨ (p < 0 ∧ 0 < r ∧ -5 * p ≤ 4 * r) ∨
          (0 < p ∧ r < 0 ∧ (-3 * r ≤ 2 * p ∨ 3 * p ≤ -2 * r)))) ∧
      (0 ≤ r * p → 0 ≤ s ∧ s ≤ 3 * k.PI / 2) := by
  rw [setCyclicShift_of_filtered k roll pitch r p hr hp]
  by_cases hr0 : r = 0
  · subst hr0
    by_cases hp0 : p = 0
    · subst hp0
      refine ⟨0, by simp, ?_, ?_⟩
      · simp only [mul_zero, le_refl, true_or, iff_true]
        constructor <;> linarith
      · intro _; constructor <;> linarith
    · by_cases hpn : p < 0
      · refine ⟨k.PI, by simp [hp0, hpn], ?_, ?_⟩
        · simp only [zero_mul, le_refl, true_or, iff_true]
          constructor <;> linarith
        · intro _; constructor <;> linarith
      · refine ⟨0, by simp [hp0, hpn], ?_, ?_⟩
        · simp only [zero_mul, le_refl, true_or, iff_true]
          constructor <;> linarith
        · intro _; constructor <;> linarith
  · by_cases hp0 : p = 0
    · subst hp0
      by_cases hrn : r < 0
      · refine ⟨3 * k.PI / 2, by simp [hr0, hrn], ?_, ?_⟩
        · simp only [mul_zero, le_refl, true_or, iff_true]
          constructor <;> linarith
        · intro _; constructor <;> linarith
      · refine ⟨k.PI / 2, by simp [hr0, hrn], ?_, ?_⟩
        · simp only [mul_zero, le_refl, true_or, iff_true]
          constructor <;> linarith
        · intro _; constructor <;> linarith
    · have hs : r + p ≠ 0 := by
        rcases hdeg with h | h | h
        · exact absurd h hr0
        · exact absurd h hp0
        · exact h
      simp only [hr0, hp0, false_and, and_false, if_false, fdiv_of_ne p (r + p) hs,
        Option.some_bind]
      rcases lt_or_gt_of_ne hp0 with hpn | hpp <;> rcases lt_or_gt_of_ne hr0 with hrn | hrp
      · -- p < 0, r < 0
        obtain ⟨q0, q1⟩ := quot_same_sign r p (Or.inr ⟨hrn, hpn⟩)
        have hq : 0 ≤ k.PI / 2 * (p / (r + p)) := by positivity
        have hq1 : k.PI / 2 * (p / (r + p)) ≤ k.PI / 2 * 1 :=
          (pi_scale _ _ _ (by positivity)).mpr q1.le
        have hpos : 0 ≤ r * p := (mul_pos_of_neg_of_neg hrn hpn).le
        refine ⟨_, by rw [if_pos hpn, if_pos hrn], ?_, ?_⟩
        · simp only [hpos, true_or, iff_true]
          constructor <;> linarith
        · intro _; constructor <;> linarith
      · -- p < 0, 0 < r
        have hneg : ¬ (0 ≤ r * p) := not_le.mpr (mul_neg_of_pos_of_neg hrp hpn)
        refine ⟨_, by rw [if_pos hpn, if_neg (not_lt_of_gt hrp)], ?_, ?_⟩
        · simp only [hneg, false_or, hpn, hrp, true_and, not_lt_of_gt hpn, false_and, or_false]
          rw [← quot_range_neg_pos r p hpn hrp hs]
          rw [show -(k.PI / 2) = k.PI * (-(1 / 2)) by ring,
            show -1 * (k.PI / 2 * (p / (r + p))) = k.PI * (-(p / (r + p)) / 2) by ring,
            show 2 * k.PI = k.PI * 2 by ring, pi_scale _ _ _ hPI, pi_scale _ _ _ hPI]
          constructor
          · rintro ⟨h1, h2⟩; constructor <;> linarith
          · rintro ⟨h1, h2⟩; constructor <;> linarith
        · intro h; exact absurd h hneg
      · -- 0 < p, r < 0
        have hneg : ¬ (0 ≤ r * p) := not_le.mpr (mul_neg_of_neg_of_pos hrn hpp)
        refine ⟨_, by rw [if_neg (not_lt_of_gt hpp), if_pos hrn], ?_, ?_⟩
        · simp only [hneg, false_or, hpp, hrn, true_and, not_lt_of_gt hpp, false_and]
          rw [← quot_range_pos_neg r p hpp hrn hs]
          rw [show -(k.PI / 2) = k.PI * (-(1 / 2)) by ring,
            show k.PI - k.PI / 2 * (p / (r + p)) = k.PI * (1 - (p / (r + p)) / 2) by ring,
            show 2 * k.PI = k.PI * 2 by ring, pi_scale _ _ _ hPI, pi_scale _ _ _ hPI]
          constructor
          · rintro ⟨h1, h2⟩; constructor <;> linarith
          · rintro ⟨h1, h2⟩; constructor <;> linarith
        · intro h; exact absurd h hneg
      · -- 0 < p, 0 < r
        obtain ⟨q0, q1⟩ := quot_same_sign r p (Or.inl ⟨hrp, hpp⟩)
        have hq : 0 ≤ k.PI / 2 * (p / (r + p)) := by positivity
        have hq1 : k.PI / 2 * (p / (r + p)) ≤ k.PI / 2 * 1 :=
          (pi_scale _ _ _ (by positivity)).mpr q1.le
        have hpos : 0 ≤ r * p := (mul_pos hrp hpp).le
        refine ⟨_, by rw [if_neg (not_lt_of_gt hpp), if_neg (not_lt_of_gt hrp)], ?_, ?_⟩
        · simp only [hpos, true_or, iff_true]
          constructor <;> linarith
        · intro _; constructor <;> linarith

/-- Claim C4 (amended), at `RC_MIN = 1000`, `RC_MAX = 2000`, roll `1750` (vector `50`) and pitch
`1300` (vector `-40`). -/
theorem setCyclicShift_range_witness :
    0 < sampleConsts.PI ∧
    (getStickVector sampleConsts 1750).map checkMargin = some 50 ∧
    (getStickVector sampleConsts 1300).map checkMargin = some (-40) ∧
    ((50 : ℚ) = 0 ∨ (-40 : ℚ) = 0 ∨ (50 : ℚ) + (-40) ≠ 0) ∧
    ∃ s, setCyclicShift sampleConsts 1750 1300 = some s ∧
      ((-(sampleConsts.PI / 2) ≤ s ∧ s ≤ 2 * sampleConsts.PI) ↔
        (0 ≤ (50 : ℚ) * (-40) ∨ ((-40 : ℚ) < 0 ∧ (0 : ℚ) < 50 ∧ -5 * (-40 : ℚ) ≤ 4 * 50) ∨
          ((0 : ℚ) < -40 ∧ (50 : ℚ) < 0 ∧ (-3 * (50 : ℚ) ≤ 2 * (-40) ∨ 3 * (-40 : ℚ) ≤ -2 * 50)))) ∧
      (0 ≤ (50 : ℚ) * (-40) → 0 ≤ s ∧ s ≤ 3 * sampleConsts.PI / 2) :=
  ⟨by norm_num [sampleConsts], sample_filtered_1750, sample_filtered_1300, by norm_num,
    setCyclicShift_range sampleConsts 1750 1300 50 (-40) (by norm_num [sampleConsts])
      sample_filtered_1750 sample_filtered_1300 (by norm_num)⟩

/-- Claim C5.  When the dead-zone-filtered roll and pitch vectors are equal and positive,
`setCyclicShift` returns exactly `PI/4`. -/
theorem setCyclicShift_equal_positive (k : Consts) (roll pitch : ℕ) (v : ℚ)
    (hr : (getStickVector k roll).map checkMargin = some v)
    (hp : (getStickVector k pitch).map checkMargin = some v)
    (hv : 0 < v) :
    setCyclicShift k roll pitch = some (k.PI / 4) := by
  have hv0 : v ≠ 0 := ne_of_gt hv
  have hs : v + v ≠ 0 := by linarith
  rw [setCyclicShift_of_filtered k roll pitch v v hr hp]
  simp only [hv0, false_and, and_false, if_false, fdiv_of_ne v (v + v) hs, Option.some_bind,
    not_lt_of_gt hv]
  congr 1
  field_simp
  ring

/-- Claim C5, at `RC_MIN = 1000`, `RC_MAX = 2000` with both sticks at `1750` (vectors `50`). -/
theorem setCyclicShift_equal_positive_witness :
    (getStickVector sampleConsts 1750).map checkMargin = some 50 ∧ (0 : ℚ) < 50 ∧
    setCyclicShift sampleConsts 1750 1750 = some (sampleConsts.PI / 4) :=
  ⟨sample_filtered_1750, by norm_num,
    setCyclicShift_equal_positive sampleConsts 1750 1750 50 sample_filtered_1750
      sample_filtered_1750 (by norm_num)⟩

/-! ## Amplitude -/

theorem getStickScalar_nonneg (v : ℚ) : 0 ≤ getStickScalar v := by
  unfold getStickScalar
  split_ifs with h
  · linarith
  · exact not_lt.mp h

/-- Claim C6.  For every roll and pitch stick position and every `AMP_GAIN ≥ 0`, `setAmplitude`
returns a value, and it is `≥ 0` (constants with `RC_MIN < RC_MAX`). -/
theorem setAmplitude_nonneg (g : Globals) (k : Consts) (roll pitch : ℕ)
    (h : k.RC_MIN < k.RC_MAX) (hg : 0 ≤ g.AMP_GAIN) :
    ∃ a, setAmplitude g k roll pitch = some a ∧ 0 ≤ a := by
  simp only [setAmplitude, getStickVector_eq k h, Option.some_bind]
  refine ⟨_, rfl, ?_⟩
  have h1 := getStickScalar_nonneg
    ((((roll : ℚ) - k.RC_MIN) * (10000 - (-10000)) / (k.RC_MAX - k.RC_MIN) + (-10000)) / 100)
  have h2 := getStickScalar_nonneg
    ((((pitch : ℚ) - k.RC_MIN) * (10000 - (-10000)) / (k.RC_MAX - k.RC_MIN) + (-10000)) / 100)
  apply mul_nonneg _ hg
  linarith

/-- Claim C6, at `RC_MIN = 1000`, `RC_MAX = 2000`, `AMP_GAIN = 1`, roll `1700`, pitch `1300`. -/
theorem setAmplitude_nonneg_witness :
    sampleConsts.RC_MIN < sampleConsts.RC_MAX ∧ 0 ≤ sampleGlobals.AMP_GAIN ∧
    ∃ a, setAmplitude sampleGlobals sampleConsts 1700 1300 = some a ∧ 0 ≤ a :=
  ⟨by decide, by norm_num [sampleGlobals],
    setAmplitude_nonneg sampleGlobals sampleConsts 1700 1300 (by decide)
      (by norm_num [sampleGlobals])⟩

/-! ## Speed -/

theorem getStickPercent_RC_MIN (k : Consts) (h : k.RC_MIN < k.RC_MAX) :
    getStickPercent k k.RC_MIN = some 0 := by
  rw [getStickPercent_eq k h]
  norm_num

theorem getStickPercent_RC_MAX (k : Consts) (h : k.RC_MIN < k.RC_MAX) :
    getStickPercent k k.RC_MAX = some 100 := by
  rw [getStickPercent_eq k h]
  have hd := ne_of_gt (rc_range_pos k h)
  congr 1
  field_simp
  norm_num

theorem setSpeed_RC_MIN (k : Consts) (h : k.RC_MIN < k.RC_MAX) :
    setSpeed k k.RC_MIN = some 500 := by
  simp only [setSpeed, getStickPercent_RC_MIN k h, Option.some_bind]
  norm_num [map, fdiv]

theorem setSpeed_RC_MAX (k : Consts) (h : k.RC_MIN < k.RC_MAX) :
    setSpeed k k.RC_MAX = some 5900 := by
  simp only [setSpeed, getStickPercent_RC_MAX k h, Option.some_bind]
  norm_num [map, fdiv]

/-- Claim C7.  With `RC_MIN < RC_MAX`: `setSpeed(RC_MIN) = 500` and `setSpeed(RC_MAX) = 5900`;
hence the field `speed` of `setpoint(rc)` is `500` when `rc.throttle = RC_MIN` and `5900` when
`rc.throttle = RC_MAX`. -/
theorem setSpeed_endpoints (k : Consts) (h : k.RC_MIN < k.RC_MAX) :
    setSpeed k k.RC_MIN = some 500 ∧ setSpeed k k.RC_MAX = some 5900 ∧
    ∀ (g : Globals) (rc : RC),
      (rc.throttle = k.RC_MIN → (setpoint g k rc).speed = some 500) ∧
      (rc.throttle = k.RC_MAX → (setpoint g k rc).speed = some 5900) := by
  refine ⟨setSpeed_RC_MIN k h, setSpeed_RC_MAX k h, ?_⟩
  intro g rc
  constructor
  · intro ht
    simp only [setpoint, ht, setSpeed_RC_MIN k h]
  · intro ht
    simp only [setpoint, ht, setSpeed_RC_MAX k h]

/-- Claim C7, at `RC_MIN = 1000`, `RC_MAX = 2000`. -/
theorem setSpeed_endpoints_witness :
    sampleConsts.RC_MIN < sampleConsts.RC_MAX ∧
    setSpeed sampleConsts 1000 = some 500 ∧ setSpeed sampleConsts 2000 = some 5900 ∧
    (setpoint sampleGlobals sampleConsts ⟨1000, 1500, 1500, 1500, 0, 0, 0⟩).speed = some 500 ∧
    (setpoint sampleGlobals sampleConsts ⟨2000, 1500, 1500, 1500, 0, 0, 0⟩).speed = some 5900 :=
  ⟨by decide, (setSpeed_endpoints sampleConsts (by decide)).1,
    (setSpeed_endpoints sampleConsts (by decide)).2.1,
    ((setSpeed_endpoints sampleConsts (by decide)).2.2 sampleGlobals
      ⟨1000, 1500, 1500, 1500, 0, 0, 0⟩).1 rfl,
    ((setSpeed_endpoints sampleConsts (by decide)).2.2 sampleGlobals
      ⟨2000, 1500, 1500, 1500, 0, 0, 0⟩).2 rfl⟩

/-! ## Dead zone and unit conversion -/

/-- Claim C8.  For every vector `v`, `checkMargin v = 0` when `-3 < v < 3` (that is `|v| < 3`,
with `RC_MARGIN_RANGE = 3`), and `checkMargin v = v` when `|v| ≥ 3`, the boundary values `3`
and `-3` included. -/
theorem checkMargin_spec (v : ℚ) :
    RC_MARGIN_RANGE = 3 ∧
    (-3 < v ∧ v < 3 → checkMargin v = 0) ∧
    (|v| < 3 → checkMargin v = 0) ∧
    (3 ≤ |v| → checkMargin v = v) ∧
    checkMargin 3 = 3 ∧ checkMargin (-3) = -3 := by
  refine ⟨rfl, ?_, ?_, ?_, ?_, ?_⟩
  · rintro ⟨h1, h2⟩
    have h1' : v > RC_MARGIN_RANGE * (-1) := by rw [RC_MARGIN_RANGE]; linarith
    have h2' : v < RC_MARGIN_RANGE := by rw [RC_MARGIN_RANGE]; exact h2
    simp only [checkMargin, h1', h2', and_self, if_true]
  · intro h
    obtain ⟨h1, h2⟩ := abs_lt.mp h
    have h1' : v > RC_MARGIN_RANGE * (-1) := by rw [RC_MARGIN_RANGE]; linarith
    have h2' : v < RC_MARGIN_RANGE := by rw [RC_MARGIN_RANGE]; exact h2
    simp only [checkMargin, h1', h2', and_self, if_true]
  · intro h
    have hn : ¬ (v > RC_MARGIN_RANGE * (-1) ∧ v < RC_MARGIN_RANGE) := by
      rw [RC_MARGIN_RANGE]
      rintro ⟨h1, h2⟩
      have : |v| < 3 := abs_lt.mpr ⟨by linarith, h2⟩
      linarith
    simp only [checkMargin, hn, if_false]
  · norm_num [checkMargin, RC_MARGIN_RANGE]
  · norm_num [checkMargin, RC_MARGIN_RANGE]

/-- Claim C8, at `v = 2` (inside the dead zone) and `v = -7` (outside). -/
theorem checkMargin_spec_witness :
    (-3 < (2 : ℚ) ∧ (2 : ℚ) < 3) ∧ checkMargin 2 = 0 ∧
    3 ≤ |(-7 : ℚ)| ∧ checkMargin (-7) = -7 :=
  ⟨by norm_num, (checkMargin_spec 2).2.1 (by norm_num), by norm_num [abs_of_neg],
    (checkMargin_spec (-7)).2.2.2.1 (by norm_num [abs_of_neg])⟩

/-- Claim C9.  With `RC_MIN < RC_MAX`: `getStickPercent(RC_MIN) = 0`,
`getStickPercent(RC_MAX) = 100`, and for every `pos` with `RC_MIN ≤ pos ≤ RC_MAX` the function
returns a value in `[0, 100]`. -/
theorem getStickPercent_range (k : Consts) (h : k.RC_MIN < k.RC_MAX) :
    getStickPercent k k.RC_MIN = some 0 ∧ getStickPercent k k.RC_MAX = some 100 ∧
    ∀ pos : ℕ, k.RC_MIN ≤ pos → pos ≤ k.RC_MAX →
      ∃ v, getStickPercent k pos = some v ∧ 0 ≤ v ∧ v ≤ 100 := by
  refine ⟨getStickPercent_RC_MIN k h, getStickPercent_RC_MAX k h, ?_⟩
  intro pos h1 h2
  have hd := rc_range_pos k h
  have q1 : (k.RC_MIN : ℚ) ≤ pos := by exact_mod_cast h1
  have q2 : (pos : ℚ) ≤ k.RC_MAX := by exact_mod_cast h2
  refine ⟨_, getStickPercent_eq k h pos, ?_, ?_⟩
  · apply div_nonneg _ (by norm_num)
    have : 0 ≤ ((pos : ℚ) - k.RC_MIN) * (10000 - 0) / (k.RC_MAX - k.RC_MIN) :=
      div_nonneg (mul_nonneg (by linarith) (by norm_num)) hd.le
    linarith
  · rw [div_le_iff₀ (by norm_num : (0 : ℚ) < 100), add_zero, div_le_iff₀ hd]
    nlinarith

/-- Claim C9, at `RC_MIN = 1000`, `RC_MAX = 2000`, `pos = 1250`. -/
theorem getStickPercent_range_witness :
    sampleConsts.RC_MIN < sampleConsts.RC_MAX ∧
    sampleConsts.RC_MIN ≤ 1250 ∧ 1250 ≤ sampleConsts.RC_MAX ∧
    getStickPercent sampleConsts 1000 = some 0 ∧ getStickPercent sampleConsts 2000 = some 100 ∧
    ∃ v, getStickPercent sampleConsts 1250 = some v ∧ 0 ≤ v ∧ v ≤ 100 :=
  ⟨by decide, by decide, by decide, (getStickPercent_range sampleConsts (by decide)).1,
    (getStickPercent_range sampleConsts (by decide)).2.1,
    (getStickPercent_range sampleConsts (by decide)).2.2 1250 (by decide) (by decide)⟩

/-- Claim C10.  With `RC_MIN < RC_MAX`: `getStickVector(RC_MIN) = -100`,
`getStickVector(RC_MAX) = 100`, and `getStickVector(centre) = 0` for the stick position
`centre = (RC_MIN + RC_MAX) / 2` midway between the two (`2 * centre = RC_MIN + RC_MAX`). -/
theorem getStickVector_endpoints (k : Consts) (h : k.RC_MIN < k.RC_MAX) :
    getStickVector k k.RC_MIN = some (-100) ∧
    (∀ centre : ℕ, 2 * centre = k.RC_MIN + k.RC_MAX → getStickVector k centre = some 0) ∧
    (2 ∣ k.RC_MIN + k.RC_MAX → getStickVector k ((k.RC_MIN + k.RC_MAX) / 2) = some 0) ∧
    getStickVector k k.RC_MAX = some 100 := by
  refine ⟨getStickVector_RC_MIN k h, fun centre hc => getStickVector_centre k h centre hc, ?_,
    getStickVector_RC_MAX k h⟩
  intro hdvd
  exact getStickVector_centre k h _ (Nat.mul_div_cancel' hdvd)

/-- Claim C10, at `RC_MIN = 1000`, `RC_MAX = 2000`, `centre = 1500`. -/
theorem getStickVector_endpoints_witness :
    sampleConsts.RC_MIN < sampleConsts.RC_MAX ∧
    2 * 1500 = sampleConsts.RC_MIN + sampleConsts.RC_MAX ∧
    getStickVector sampleConsts 1000 = some (-100) ∧
    getStickVector sampleConsts 1500 = some 0 ∧
    getStickVector sampleConsts 2000 = some 100 :=
  ⟨by decide, by decide, (getStickVector_endpoints sampleConsts (by decide)).1,
    (getStickVector_endpoints sampleConsts (by decide)).2.1 1500 (by decide),
    (getStickVector_endpoints sampleConsts (by decide)).2.2.2⟩

/-! ## Monotonicity of the conversions -/

/-- The rescaled quotient grows with the stick position. -/
theorem rescale_mono (k : Consts) (h : k.RC_MIN < k.RC_MAX) (pos1 pos2 : ℕ) (h12 : pos1 ≤ pos2)
    (c lo : ℚ) (hc : 0 ≤ c) :
    (((pos1 : ℚ) - k.RC_MIN) * c / (k.RC_MAX - k.RC_MIN) + lo) / 100
      ≤ (((pos2 : ℚ) - k.RC_MIN) * c / (k.RC_MAX - k.RC_MIN) + lo) / 100 := by
  have hd := rc_range_pos k h
  have q12 : (pos1 : ℚ) ≤ pos2 := by exact_mod_cast h12
  apply div_le_div_of_nonneg_right _ (by norm_num : (0 : ℚ) ≤ 100)
  apply add_le_add_right
  apply div_le_div_of_nonneg_right _ hd.le
  exact mul_le_mul_of_nonneg_right (by linarith) hc

/-- Claim C11.  With `RC_MIN < RC_MAX`, `getStickPercent` and `getStickVector` are monotonic
non-decreasing in the stick position: for `pos1 ≤ pos2` both return values, and the value at
`pos1` is at most the value at `pos2`.  This holds in particular for
`RC_MIN ≤ pos1 ≤ pos2 ≤ RC_MAX`; the bounds are not needed, the rescale being linear on all
positions. -/
theorem getStick_monotone (k : Consts) (h : k.RC_MIN < k.RC_MAX) (pos1 pos2 : ℕ)
    (h12 : pos1 ≤ pos2) :
    (∃ a b, getStickPercent k pos1 = some a ∧ getStickPercent k pos2 = some b ∧ a ≤ b) ∧
    (∃ a b, getStickVector k pos1 = some a ∧ getStickVector k pos2 = some b ∧ a ≤ b) := by
  constructor
  · exact ⟨_, _, getStickPercent_eq k h pos1, getStickPercent_eq k h pos2,
      rescale_mono k h pos1 pos2 h12 _ _ (by norm_num)⟩
  · exact ⟨_, _, getStickVector_eq k h pos1, getStickVector_eq k h pos2,
      rescale_mono k h pos1 pos2 h12 _ _ (by norm_num)⟩

/-- Claim C11, at `RC_MIN = 1000`, `RC_MAX = 2000`, `pos1 = 1200`, `pos2 = 1700`. -/
theorem getStick_monotone_witness :
    sampleConsts.RC_MIN < sampleConsts.RC_MAX ∧ 1200 ≤ 1700 ∧
    (∃ a b, getStickPercent sampleConsts 1200 = some a ∧
      getStickPercent sampleConsts 1700 = some b ∧ a ≤ b) ∧
    (∃ a b, getStickVector sampleConsts 1200 = some a ∧
      getStickVector sampleConsts 1700 = some b ∧ a ≤ b) :=
  ⟨by decide, by decide, getStick_monotone sampleConsts (by decide) 1200 1700 (by decide)⟩

/-! ## Scalar and dead zone, algebraic facts -/

theorem getStickScalar_eq_abs (v : ℚ) : getStickScalar v = |v| := by
  unfold getStickScalar
  split_ifs with h
  · rw [abs_of_neg h]; ring
  · rw [abs_of_nonneg (not_lt.mp h)]

/-- Claim C12.  For every vector `v`, `getStickScalar v` is the absolute value of `v`: it is
`≥ 0` and equal to `getStickScalar (-v)`. -/
theorem getStickScalar_abs (v : ℚ) :
    getStickScalar v = |v| ∧ 0 ≤ getStickScalar v ∧ getStickScalar v = getStickScalar (-v) := by
  refine ⟨getStickScalar_eq_abs v, ?_, ?_⟩
  · rw [getStickScalar_eq_abs]; exact abs_nonneg v
  · rw [getStickScalar_eq_abs, getStickScalar_eq_abs, abs_neg]

/-- Claim C13.  `checkMargin` is idempotent: `checkMargin (checkMargin v) = checkMargin v` for
every vector `v`. -/
theorem checkMargin_idempotent (v : ℚ) : checkMargin (checkMargin v) = checkMargin v := by
  by_cases h : v > RC_MARGIN_RANGE * (-1) ∧ v < RC_MARGIN_RANGE
  · have hv : checkMargin v = 0 := by simp only [checkMargin, h, and_self, if_true]
    rw [hv, checkMargin_zero]
  · have hv : checkMargin v = v := by simp only [checkMargin, h, if_false]
    rw [hv, hv]

/-! ## The set-point record -/

/-- Claim C14.  `setpoint` depends on `(throttle, roll, pitch, AMP_GAIN)` only: two RC records
that agree on throttle, roll and pitch and two global states that agree on `AMP_GAIN` give the
same set-point record, whatever the yaw and aux channels and the speed and moment gains are;
moreover the fields `speed` and `cyclic_shift` agree even when `AMP_GAIN` differs. -/
theorem setpoint_depends_only (k : Consts) (g1 g2 : Globals) (rc1 rc2 : RC)
    (ht : rc1.throttle = rc2.throttle) (hr : rc1.roll = rc2.roll)
    (hp : rc1.pitch = rc2.pitch) :
    (g1.AMP_GAIN = g2.AMP_GAIN →
      (setpoint g1 k rc1).speed = (setpoint g2 k rc2).speed ∧
      (setpoint g1 k rc1).amplitude = (setpoint g2 k rc2).amplitude ∧
      (setpoint g1 k rc1).cyclic_shift = (setpoint g2 k rc2).cyclic_shift) ∧
    (setpoint g1 k rc1).speed = (setpoint g2 k rc2).speed ∧
    (setpoint g1 k rc1).cyclic_shift = (setpoint g2 k rc2).cyclic_shift := by
  have hs : (setpoint g1 k rc1).speed = (setpoint g2 k rc2).speed := by
    simp only [setpoint, ht]
  have hc : (setpoint g1 k rc1).cyclic_shift = (setpoint g2 k rc2).cyclic_shift := by
    simp only [setpoint, hr, hp]
  refine ⟨fun hg => ⟨hs, ?_, hc⟩, hs, hc⟩
  simp only [setpoint, setAmplitude, hr, hp, hg]

/-- Claim C14, at two RC records that differ in yaw and the aux channels and two global states
that differ in the speed and moment gains. -/
theorem setpoint_depends_only_witness :
    (sampleGlobals.AMP_GAIN
        = ({ AMP_GAIN := 1, SPD_GAIN := ⟨7, 8, 9⟩, MNT_GAIN := ⟨4, 5, 6⟩ } : Globals).AMP_GAIN) ∧
    (setpoint sampleGlobals sampleConsts ⟨1200, 1700, 1300, 1500, 0, 0, 0⟩).amplitude
      = (setpoint { AMP_GAIN := 1, SPD_GAIN := ⟨7, 8, 9⟩, MNT_GAIN := ⟨4, 5, 6⟩ } sampleConsts
          ⟨1200, 1700, 1300, 1900, 1, 2, 3⟩).amplitude :=
  ⟨rfl, ((setpoint_depends_only sampleConsts sampleGlobals
      { AMP_GAIN := 1, SPD_GAIN := ⟨7, 8, 9⟩, MNT_GAIN := ⟨4, 5, 6⟩ }
      ⟨1200, 1700, 1300, 1500, 0, 0, 0⟩ ⟨1200, 1700, 1300, 1900, 1, 2, 3⟩ rfl rfl rfl).1 rfl).2.1⟩

/-! ## Amplitude and the gain setters -/

/-- Claim C15.  With `RC_MIN < RC_MAX`, for every roll and pitch stick position both conversions
return vectors `rv`, `pv`, and after `setAmplitudeGain(gain)` (also when `setSpeedGain` and
`setMomentGain` are called afterwards) `setAmplitude(roll, pitch)` is
`(0.5 * |rv| + 0.5 * |pv|) * gain`. -/
theorem setAmplitude_formula (g : Globals) (k : Consts) (roll pitch : ℕ) (gain : ℚ)
    (h : k.RC_MIN < k.RC_MAX) :
    ∃ rv pv, getStickVector k roll = some rv ∧ getStickVector k pitch = some pv ∧
      setAmplitude (setAmplitudeGain g gain) k roll pitch
        = some ((1 / 2 * |rv| + 1 / 2 * |pv|) * gain) ∧
      ∀ p d p2 d2 : ℚ,
        setAmplitude (setMomentGain (setSpeedGain (setAmplitudeGain g gain) p d) p2 d2) k
          roll pitch = some ((1 / 2 * |rv| + 1 / 2 * |pv|) * gain) := by
  refine ⟨_, _, getStickVector_eq k h roll, getStickVector_eq k h pitch, ?_, ?_⟩
  · simp only [setAmplitude, getStickVector_eq k h, Option.some_bind, getStickScalar_eq_abs,
      setAmplitudeGain]
    congr 1; ring
  · intro p d p2 d2
    simp only [setAmplitude, getStickVector_eq k h, Option.some_bind, getStickScalar_eq_abs,
      setAmplitudeGain, setSpeedGain, setMomentGain]
    congr 1; ring

/-- Claim C15, at `RC_MIN = 1000`, `RC_MAX = 2000`, roll `1700`, pitch `1300`, gain `3`. -/
theorem setAmplitude_formula_witness :
    sampleConsts.RC_MIN < sampleConsts.RC_MAX ∧
    ∃ rv pv, getStickVector sampleConsts 1700 = some rv ∧
      getStickVector sampleConsts 1300 = some pv ∧
      setAmplitude (setAmplitudeGain sampleGlobals 3) sampleConsts 1700 1300
        = some ((1 / 2 * |rv| + 1 / 2 * |pv|) * 3) ∧
      ∀ p d p2 d2 : ℚ,
        setAmplitude (setMomentGain (setSpeedGain (setAmplitudeGain sampleGlobals 3) p d) p2 d2)
          sampleConsts 1700 1300 = some ((1 / 2 * |rv| + 1 / 2 * |pv|) * 3) :=
  ⟨by decide, setAmplitude_formula sampleGlobals sampleConsts 1700 1300 3 (by decide)⟩

/-- Claim C16 (what the code does).  In the build with `I_CONTROLLER`, `setSpeedGain(p, d, i)`
leaves `P_gain = i`, `D_gain = d` and `I_gain` unchanged, and `setMomentGain(p, d, i)` does the
same to the moment gain record: the third assignment stores `i` into `P_gain`, overwriting `p`,
and `I_gain` is never written. -/
theorem setGain_I_CONTROLLER_stores_i_in_P_gain (g : Globals) (p d i : ℚ) :
    (setSpeedGain_I_CONTROLLER g p d i).SPD_GAIN.P_gain = i ∧
    (setSpeedGain_I_CONTROLLER g p d i).SPD_GAIN.D_gain = d ∧
    (setSpeedGain_I_CONTROLLER g p d i).SPD_GAIN.I_gain = g.SPD_GAIN.I_gain ∧
    (setMomentGain_I_CONTROLLER g p d i).MNT_GAIN.P_gain = i ∧
    (setMomentGain_I_CONTROLLER g p d i).MNT_GAIN.D_gain = d ∧
    (setMomentGain_I_CONTROLLER g p d i).MNT_GAIN.I_gain = g.MNT_GAIN.I_gain :=
  ⟨rfl, rfl, rfl, rfl, rfl, rfl⟩

/-- The calls `setSpeedGain(2, 3, 5)` and `setMomentGain(2, 3, 5)` of the build with
`I_CONTROLLER`, from the state with every gain equal to one: `P_gain` is `5`, not `2`, and
`I_gain` is still `1`, not `5`. -/
theorem setGain_I_CONTROLLER_example :
    (setSpeedGain_I_CONTROLLER sampleGlobals 2 3 5).SPD_GAIN = ⟨5, 3, 1⟩ ∧
    (setMomentGain_I_CONTROLLER sampleGlobals 2 3 5).MNT_GAIN = ⟨5, 3, 1⟩ ∧
    (setSpeedGain_I_CONTROLLER sampleGlobals 2 3 5).SPD_GAIN.P_gain ≠ 2 ∧
    (setSpeedGain_I_CONTROLLER sampleGlobals 2 3 5).SPD_GAIN.I_gain ≠ 5 := by
  refine ⟨rfl, rfl, ?_, ?_⟩ <;> norm_num [setSpeedGain_I_CONTROLLER, sampleGlobals]

/-! ## Shape of the phase in the same-sign quadrants -/

/-- The phase in the both-positive quadrant, in closed form. -/
theorem setCyclicShift_pos_pos (k : Consts) (roll pitch : ℕ) (r p : ℚ)
    (hr : (getStickVector k roll).map checkMargin = some r)
    (hp : (getStickVector k pitch).map checkMargin = some p)
    (hr0 : 0 < r) (hp0 : 0 < p) :
    setCyclicShift k roll pitch = some (k.PI / 2 * (p / (r + p))) := by
  have hs : r + p ≠ 0 := by linarith
  rw [setCyclicShift_of_filtered k roll pitch r p hr hp]
  simp only [ne_of_gt hr0, ne_of_gt hp0, false_and, and_false, if_false,
    fdiv_of_ne p (r + p) hs, Option.some_bind, not_lt_of_gt hr0, not_lt_of_gt hp0]

/-- The phase in the both-negative quadrant, in closed form. -/
theorem setCyclicShift_neg_neg (k : Consts) (roll pitch : ℕ) (r p : ℚ)
    (hr : (getStickVector k roll).map checkMargin = some r)
    (hp : (getStickVector k pitch).map checkMargin = some p)
    (hr0 : r < 0) (hp0 : p < 0) :
    setCyclicShift k roll pitch = some (k.PI + k.PI / 2 * (p / (r + p))) := by
  have hs : r + p ≠ 0 := by linarith
  rw [setCyclicShift_of_filtered k roll pitch r p hr hp]
  simp only [ne_of_lt hr0, ne_of_lt hp0, false_and, and_false, if_false,
    fdiv_of_ne p (r + p) hs, Option.some_bind, hr0, hp0, if_true]

/-- Claim C17.  With `PI > 0` and `r`, `p` the dead-zone-filtered roll and pitch vectors: for
`r > 0` and `p > 0` the sum `r + p` is nonzero and `setCyclicShift` returns a phase strictly
between `0` and `PI/2`; for `r < 0` and `p < 0` the sum is nonzero and it returns a phase
strictly between `PI` and `3*PI/2`. -/
theorem setCyclicShift_quarter_turn (k : Consts) (roll pitch : ℕ) (r p : ℚ) (hPI : 0 < k.PI)
    (hr : (getStickVector k roll).map checkMargin = some r)
    (hp : (getStickVector k pitch).map checkMargin = some p) :
    (0 < r → 0 < p →
      r + p ≠ 0 ∧ ∃ s, setCyclicShift k roll pitch = some s ∧ 0 < s ∧ s < k.PI / 2) ∧
    (r < 0 → p < 0 →
      r + p ≠ 0 ∧ ∃ s, setCyclicShift k roll pitch = some s ∧ k.PI < s ∧ s < 3 * k.PI / 2) := by
  have h2 : 0 < k.PI / 2 := by positivity
  constructor
  · intro hr0 hp0
    obtain ⟨q0, q1⟩ := quot_same_sign r p (Or.inl ⟨hr0, hp0⟩)
    have a1 : 0 < k.PI / 2 * (p / (r + p)) := mul_pos h2 q0
    have a2 : k.PI / 2 * (p / (r + p)) < k.PI / 2 * 1 := mul_lt_mul_of_pos_left q1 h2
    refine ⟨by linarith, _, setCyclicShift_pos_pos k roll pitch r p hr hp hr0 hp0, a1, ?_⟩
    linarith
  · intro hr0 hp0
    obtain ⟨q0, q1⟩ := quot_same_sign r p (Or.inr ⟨hr0, hp0⟩)
    have a1 : 0 < k.PI / 2 * (p / (r + p)) := mul_pos h2 q0
    have a2 : k.PI / 2 * (p / (r + p)) < k.PI / 2 * 1 := mul_lt_mul_of_pos_left q1 h2
    refine ⟨by linarith, _, setCyclicShift_neg_neg k roll pitch r p hr hp hr0 hp0, ?_, ?_⟩ <;>
      linarith

theorem sample_filtered_1200 :
    (getStickVector sampleConsts 1200).map checkMargin = some (-60) := by
  norm_num [getStickVector, map, fdiv, sampleConsts, checkMargin, RC_MARGIN_RANGE]

/-- Claim C17, at `RC_MIN = 1000`, `RC_MAX = 2000`: roll `1750` with pitch `1700` (vectors `50`
and `40`), and roll `1200` with pitch `1300` (vectors `-60` and `-40`). -/
theorem setCyclicShift_quarter_turn_witness :
    0 < sampleConsts.PI ∧
    (getStickVector sampleConsts 1750).map checkMargin = some 50 ∧
    (getStickVector sampleConsts 1700).map checkMargin = some 40 ∧
    (getStickVector sampleConsts 1200).map checkMargin = some (-60) ∧
    (getStickVector sampleConsts 1300).map checkMargin = some (-40) ∧
    ((50 : ℚ) + 40 ≠ 0 ∧ ∃ s, setCyclicShift sampleConsts 1750 1700 = some s ∧ 0 < s ∧
      s < sampleConsts.PI / 2) ∧
    ((-60 : ℚ) + (-40) ≠ 0 ∧ ∃ s, setCyclicShift sampleConsts 1200 1300 = some s ∧
      sampleConsts.PI < s ∧ s < 3 * sampleConsts.PI / 2) :=
  ⟨by norm_num [sampleConsts], sample_filtered_1750, sample_filtered_1700, sample_filtered_1200,
    sample_filtered_1300,
    (setCyclicShift_quarter_turn sampleConsts 1750 1700 50 40 (by norm_num [sampleConsts])
      sample_filtered_1750 sample_filtered_1700).1 (by norm_num) (by norm_num),
    (setCyclicShift_quarter_turn sampleConsts 1200 1300 (-60) (-40)
      (by norm_num [sampleConsts]) sample_filtered_1200 sample_filtered_1300).2
      (by norm_num) (by norm_num)⟩

/-- In the both-positive quadrant the quotient `p / (r + p)` grows with `p` and falls with
`r`. -/
theorem quot_strict_mono (r1 r2 p1 p2 : ℚ) (hr1 : 0 < r1) (hr2 : 0 < r2) (hp1 : 0 < p1)
    (hp2 : 0 < p2) (h : p1 * r2 < p2 * r1) : p1 / (r1 + p1) < p2 / (r2 + p2) := by
  rw [div_lt_div_iff₀ (by linarith) (by linarith)]
  nlinarith

/-- Claim C18.  With `PI > 0`, in the both-positive quadrant of the dead-zone-filtered vectors:
for fixed `r > 0` and `0 < p1 < p2` the phase at `(r, p1)` is strictly less than at `(r, p2)`;
for fixed `p > 0` and `0 < r1 < r2` the phase at `(r1, p)` is strictly greater than at
`(r2, p)`.  The phase tends to `0` towards pure roll and to `PI/2` towards pure pitch: it is at
most `(PI/2) * e` when `p ≤ e * r` and at least `PI/2 - (PI/2) * e` when `r ≤ e * p`; yet pure
roll (`p = 0`, `r > 0`) has phase `PI/2` and pure pitch (`r = 0`, `p > 0`) has phase `0`. -/
theorem setCyclicShift_both_positive_monotone (k : Consts) (hPI : 0 < k.PI) :
    (∀ (roll pitch1 pitch2 : ℕ) (r p1 p2 : ℚ),
      (getStickVector k roll).map checkMargin = some r →
      (getStickVector k pitch1).map checkMargin = some p1 →
      (getStickVector k pitch2).map checkMargin = some p2 →
      0 < r → 0 < p1 → p1 < p2 →
      ∃ s1 s2, setCyclicShift k roll pitch1 = some s1 ∧
        setCyclicShift k roll pitch2 = some s2 ∧ s1 < s2) ∧
    (∀ (roll1 roll2 pitch : ℕ) (r1 r2 p : ℚ),
      (getStickVector k roll1).map checkMargin = some r1 →
      (getStickVector k roll2).map checkMargin = some r2 →
      (getStickVector k pitch).map checkMargin = some p →
      0 < p → 0 < r1 → r1 < r2 →
      ∃ s1 s2, setCyclicShift k roll1 pitch = some s1 ∧
        setCyclicShift k roll2 pitch = some s2 ∧ s2 < s1) ∧
    (∀ (roll pitch : ℕ) (r p e : ℚ),
      (getStickVector k roll).map checkMargin = some r →
      (getStickVector k pitch).map checkMargin = some p →
      0 < r → 0 < p →
      ∃ s, setCyclicShift k roll pitch = some s ∧
        (p ≤ e * r → s ≤ k.PI / 2 * e) ∧ (r ≤ e * p → k.PI / 2 - k.PI / 2 * e ≤ s)) ∧
    (∀ (roll pitch : ℕ) (r : ℚ),
      (getStickVector k roll).map checkMargin = some r →
      (getStickVector k pitch).map checkMargin = some 0 →
      0 < r → setCyclicShift k roll pitch = some (k.PI / 2)) ∧
    (∀ (roll pitch : ℕ) (p : ℚ),
      (getStickVector k roll).map checkMargin = some 0 →
      (getStickVector k pitch).map checkMargin = some p →
      0 < p → setCyclicShift k roll pitch = some 0) := by
  have h2 : 0 < k.PI / 2 := by positivity
  refine ⟨?_, ?_, ?_, ?_, ?_⟩
  · intro roll pitch1 pitch2 r p1 p2 hr hp1 hp2 hr0 hp10 h12
    have hp20 : 0 < p2 := lt_trans hp10 h12
    refine ⟨_, _, setCyclicShift_pos_pos k roll pitch1 r p1 hr hp1 hr0 hp10,
      setCyclicShift_pos_pos k roll pitch2 r p2 hr hp2 hr0 hp20, ?_⟩
    exact mul_lt_mul_of_pos_left
      (quot_strict_mono r r p1 p2 hr0 hr0 hp10 hp20 (mul_lt_mul_of_pos_right h12 hr0)) h2
  · intro roll1 roll2 pitch r1 r2 p hr1 hr2 hp hp0 hr10 h12
    have hr20 : 0 < r2 := lt_trans hr10 h12
    refine ⟨_, _, setCyclicShift_pos_pos k roll1 pitch r1 p hr1 hp hr10 hp0,
      setCyclicShift_pos_pos k roll2 pitch r2 p hr2 hp hr20 hp0, ?_⟩
    exact mul_lt_mul_of_pos_left
      (quot_strict_mono r2 r1 p p hr20 hr10 hp0 hp0 (mul_lt_mul_of_pos_left h12 hp0)) h2
  · intro roll pitch r p e hr hp hr0 hp0
    have hd : 0 < r + p := by linarith
    refine ⟨_, setCyclicShift_pos_pos k roll pitch r p hr hp hr0 hp0, ?_, ?_⟩
    · intro he
      have he0 : 0 ≤ e := by
        by_contra hneg
        have : e * r < 0 := mul_neg_of_neg_of_pos (not_le.mp hneg) hr0
        linarith
      apply mul_le_mul_of_nonneg_left _ h2.le
      rw [div_le_iff₀ hd]
      nlinarith
    · intro he
      have he0 : 0 ≤ e := by
        by_contra hneg
        have : e * p < 0 := mul_neg_of_neg_of_pos (not_le.mp hneg) hp0
        linarith
      have hq : 1 - e ≤ p / (r + p) := by
        rw [le_div_iff₀ hd]
        nlinarith
      have := mul_le_mul_of_nonneg_left hq h2.le
      linarith
  · intro roll pitch r hr hp hr0
    rw [setCyclicShift_of_filtered k roll pitch r 0 hr hp]
    simp [ne_of_gt hr0, not_lt_of_gt hr0]
  · intro roll pitch p hr hp hp0
    rw [setCyclicShift_of_filtered k roll pitch 0 p hr hp]
    simp [ne_of_gt hp0, not_lt_of_gt hp0]

/-- Claim C18, at `RC_MIN = 1000`, `RC_MAX = 2000`: roll `1750` (vector `50`) with pitch `1700`
and `1750` (vectors `40 < 50`), and pitch `1750` with roll `1700` and `1750`. -/
theorem setCyclicShift_both_positive_monotone_witness :
    0 < sampleConsts.PI ∧
    (getStickVector sampleConsts 1750).map checkMargin = some 50 ∧
    (getStickVector sampleConsts 1700).map checkMargin = some 40 ∧
    (0 : ℚ) < 50 ∧ (0 : ℚ) < 40 ∧ (40 : ℚ) < 50 ∧
    (∃ s1 s2, setCyclicShift sampleConsts 1750 1700 = some s1 ∧
      setCyclicShift sampleConsts 1750 1750 = some s2 ∧ s1 < s2) ∧
    (∃ s1 s2, setCyclicShift sampleConsts 1700 1750 = some s1 ∧
      setCyclicShift sampleConsts 1750 1750 = some s2 ∧ s2 < s1) :=
  ⟨by norm_num [sampleConsts], sample_filtered_1750, sample_filtered_1700, by norm_num,
    by norm_num, by norm_num,
    (setCyclicShift_both_positive_monotone sampleConsts (by norm_num [sampleConsts])).1
      1750 1700 1750 50 40 50 sample_filtered_1750 sample_filtered_1700 sample_filtered_1750
      (by norm_num) (by norm_num) (by norm_num),
    (setCyclicShift_both_positive_monotone sampleConsts (by norm_num [sampleConsts])).2.1
      1700 1750 1750 40 50 50 sample_filtered_1700 sample_filtered_1750 sample_filtered_1750
      (by norm_num) (by norm_num) (by norm_num)⟩

/-! ## Dead zone: phase against amplitude -/

theorem getStickScalar_pos (v : ℚ) (h : v ≠ 0) : 0 < getStickScalar v := by
  rw [getStickScalar_eq_abs]
  exact abs_pos.mpr h

theorem checkMargin_inside (v : ℚ) (h1 : -RC_MARGIN_RANGE < v) (h2 : v < RC_MARGIN_RANGE) :
    checkMargin v = 0 := by
  have h1' : v > RC_MARGIN_RANGE * (-1) := by linarith
  simp only [checkMargin, h1', h2, and_self, if_true]

/-- Claim C19.  When the roll and pitch vectors `rv`, `pv` both lie strictly inside
`(-RC_MARGIN_RANGE, RC_MARGIN_RANGE)` and are not both zero, and `AMP_GAIN > 0`, then
`setCyclicShift` returns `0` while `setAmplitude` returns a strictly positive value: the dead
zone is applied to the phase but not to the amplitude. -/
theorem deadzone_phase_not_amplitude (g : Globals) (k : Consts) (roll pitch : ℕ) (rv pv : ℚ)
    (hr : getStickVector k roll = some rv) (hp : getStickVector k pitch = some pv)
    (hr1 : -RC_MARGIN_RANGE < rv) (hr2 : rv < RC_MARGIN_RANGE)
    (hp1 : -RC_MARGIN_RANGE < pv) (hp2 : pv < RC_MARGIN_RANGE)
    (hnz : ¬ (rv = 0 ∧ pv = 0)) (hg : 0 < g.AMP_GAIN) :
    setCyclicShift k roll pitch = some 0 ∧
    ∃ a, setAmplitude g k roll pitch = some a ∧ 0 < a := by
  constructor
  · have hr' : (getStickVector k roll).map checkMargin = some 0 := by
      rw [hr, Option.map_some', checkMargin_inside rv hr1 hr2]
    have hp' : (getStickVector k pitch).map checkMargin = some 0 := by
      rw [hp, Option.map_some', checkMargin_inside pv hp1 hp2]
    rw [setCyclicShift_of_filtered k roll pitch 0 0 hr' hp']
    simp
  · simp only [setAmplitude, hr, hp, Option.some_bind]
    refine ⟨_, rfl, ?_⟩
    apply mul_pos _ hg
    have a1 := getStickScalar_nonneg rv
    have a2 := getStickScalar_nonneg pv
    by_cases h0 : rv = 0
    · have hpv : pv ≠ 0 := fun h => hnz ⟨h0, h⟩
      have := getStickScalar_pos pv hpv
      linarith
    · have := getStickScalar_pos rv h0
      linarith

theorem sample_vector_1510 : getStickVector sampleConsts 1510 = some 2 := by
  norm_num [getStickVector, map, fdiv, sampleConsts]

theorem sample_vector_1500 : getStickVector sampleConsts 1500 = some 0 := by
  norm_num [getStickVector, map, fdiv, sampleConsts]

/-- Claim C19, at `RC_MIN = 1000`, `RC_MAX = 2000`, `AMP_GAIN = 1`, roll `1510` (vector `2`)
and pitch `1500` (vector `0`): phase `0`, positive amplitude. -/
theorem deadzone_phase_not_amplitude_witness :
    getStickVector sampleConsts 1510 = some 2 ∧ getStickVector sampleConsts 1500 = some 0 ∧
    (-RC_MARGIN_RANGE < 2 ∧ (2 : ℚ) < RC_MARGIN_RANGE) ∧
    (-RC_MARGIN_RANGE < 0 ∧ (0 : ℚ) < RC_MARGIN_RANGE) ∧
    ¬ ((2 : ℚ) = 0 ∧ (0 : ℚ) = 0) ∧ 0 < sampleGlobals.AMP_GAIN ∧
    setCyclicShift sampleConsts 1510 1500 = some 0 ∧
    ∃ a, setAmplitude sampleGlobals sampleConsts 1510 1500 = some a ∧ 0 < a :=
  ⟨sample_vector_1510, sample_vector_1500, by norm_num [RC_MARGIN_RANGE],
    by norm_num [RC_MARGIN_RANGE], by norm_num, by norm_num [sampleGlobals],
    deadzone_phase_not_amplitude sampleGlobals sampleConsts 1510 1500 2 0 sample_vector_1510
      sample_vector_1500 (by norm_num [RC_MARGIN_RANGE]) (by norm_num [RC_MARGIN_RANGE])
      (by norm_num [RC_MARGIN_RANGE]) (by norm_num [RC_MARGIN_RANGE]) (by norm_num)
      (by norm_num [sampleGlobals])⟩

/-! ## Range and monotonicity of the speed -/

/-- With `RC_MIN < RC_MAX` the speed is the throttle percentage rescaled to `[500, 5900]`. -/
theorem setSpeed_eq (k : Consts) (h : k.RC_MIN < k.RC_MAX) (throttle : ℕ) :
    setSpeed k throttle
      = some (((((throttle : ℚ) - k.RC_MIN) * (10000 - 0) / (k.RC_MAX - k.RC_MIN) + 0) / 100)
          * 54 + 500) := by
  simp only [setSpeed, getStickPercent_eq k h, Option.some_bind,
    map_of_ne _ 0 100 500 5900 (by norm_num)]
  congr 1
  ring

/-- Claim C20.  With `RC_MIN < RC_MAX`: for every throttle position in `[RC_MIN, RC_MAX]`,
`setSpeed` returns a value in `[500, 5900]`; and `setSpeed` is monotonic non-decreasing in the
throttle position. -/
theorem setSpeed_range_monotone (k : Consts) (h : k.RC_MIN < k.RC_MAX) :
    (∀ t : ℕ, k.RC_MIN ≤ t → t ≤ k.RC_MAX →
      ∃ s, setSpeed k t = some s ∧ 500 ≤ s ∧ s ≤ 5900) ∧
    (∀ t1 t2 : ℕ, t1 ≤ t2 →
      ∃ s1 s2, setSpeed k t1 = some s1 ∧ setSpeed k t2 = some s2 ∧ s1 ≤ s2) := by
  have hd := rc_range_pos k h
  constructor
  · intro t h1 h2
    have q1 : (k.RC_MIN : ℚ) ≤ t := by exact_mod_cast h1
    have q2 : (t : ℚ) ≤ k.RC_MAX := by exact_mod_cast h2
    have lo : 0 ≤ (((t : ℚ) - k.RC_MIN) * (10000 - 0) / (k.RC_MAX - k.RC_MIN) + 0) / 100 := by
      apply div_nonneg _ (by norm_num)
      have : 0 ≤ ((t : ℚ) - k.RC_MIN) * (10000 - 0) / (k.RC_MAX - k.RC_MIN) :=
        div_nonneg (mul_nonneg (by linarith) (by norm_num)) hd.le
      linarith
    have hi : (((t : ℚ) - k.RC_MIN) * (10000 - 0) / (k.RC_MAX - k.RC_MIN) + 0) / 100 ≤ 100 := by
      rw [div_le_iff₀ (by norm_num : (0 : ℚ) < 100), add_zero, div_le_iff₀ hd]
      nlinarith
    refine ⟨_, setSpeed_eq k h t, ?_, ?_⟩ <;> linarith
  · intro t1 t2 h12
    have hm := rescale_mono k h t1 t2 h12 (10000 - 0) 0 (by norm_num)
    refine ⟨_, _, setSpeed_eq k h t1, setSpeed_eq k h t2, ?_⟩
    linarith

/-- Claim C20, at `RC_MIN = 1000`, `RC_MAX = 2000`, throttle `1250` and `1600`. -/
theorem setSpeed_range_monotone_witness :
    sampleConsts.RC_MIN < sampleConsts.RC_MAX ∧
    sampleConsts.RC_MIN ≤ 1250 ∧ 1250 ≤ sampleConsts.RC_MAX ∧ 1250 ≤ 1600 ∧
    (∃ s, setSpeed sampleConsts 1250 = some s ∧ 500 ≤ s ∧ s ≤ 5900) ∧
    (∃ s1 s2, setSpeed sampleConsts 1250 = some s1 ∧ setSpeed sampleConsts 1600 = some s2 ∧
      s1 ≤ s2) :=
  ⟨by decide, by decide, by decide, by decide,
    (setSpeed_range_monotone sampleConsts (by decide)).1 1250 (by decide) (by decide),
    (setSpeed_range_monotone sampleConsts (by decide)).2 1250 1600 (by decide)⟩

end NOVUS
